import Mathlib

/-!
Shallow embedding of `src/packages/repro/src/simple-runner.ts`: the
`updateTaskGraph` graph reducer and the `runAllTasks` scheduling loop, with
the executor boundary (`runExecutor`) abstracted as a function from task id
to the outcome the loop observes, and an explicit chronological trace of the
observable actions (lifecycle notifications, dispatches, error logs).
-/

/-- Terminal statuses the runner actually assigns (the TS `TaskStatus` union
has more members, but `simple-runner.ts` only ever writes these three). -/
inductive TaskStatus where
  | success
  | failure
  | skipped
deriving DecidableEq

/-- Outcome of one `runExecutor` invocation as observed by the loop:
`raises` means `runExecutor` itself or the first `next()` throws;
`yields s d` means the first event resolves with a value whose `success`
flag is `s` and with `done = d`; `doneNoValue` means the first `next()`
resolves with `done = true` and an undefined value, so destructuring
`event.value` throws inside the `try` block. -/
inductive ExecOutcome where
  | raises
  | yields (success : Bool) (done : Bool)
  | doneNoValue
deriving DecidableEq, Fintype

/-- Observable actions of one run, in chronological order. `logError id`
records the `logger.error(err)` call made while task `id` was processed;
`dispatch id` records the `runExecutor` call for task `id`. -/
inductive RunEvent where
  | startTasks (id : String)
  | scheduleTask (id : String)
  | dispatch (id : String)
  | logError (id : String)
  | endTasks (id : String) (code : Nat) (status : TaskStatus)
deriving DecidableEq

/-- The `TaskGraph` shape the runner consumes. A `Task` record is opaque to
the core except for its `id` (`target`/`overrides` are forwarded verbatim to
`runExecutor`), so `tasks` keeps only the ordered key list of the JS `tasks`
object and a task is identified with its id. -/
structure TaskGraph where
  tasks : List String
  dependencies : List (String × List String)
  roots : List String
deriving DecidableEq

/-- JS property lookup `dependencies[taskId]`, with `[]` for a missing key:
both places the code reads a possibly missing key treat `undefined` exactly
as `[]` (`_.difference(undefined, c)` is `[]`, and the `roots` filter only
looks up keys that were just built). -/
def lookupDeps (deps : List (String × List String)) (id : String) : List String :=
  match deps.find? (fun p => p.1 == id) with
  | some p => p.2
  | none => []

/-- The `updateTaskGraph` function from `simple-runner.ts`: `_.omit` the completed ids from
`tasks`, rebuild `dependencies` over the remaining keys with `_.difference`
pruning the completed ids, and recompute `roots` as the remaining ids whose
pruned dependency list is empty. -/
def updateTaskGraph (old : TaskGraph) (completed : List String) : TaskGraph :=
  let tasks := old.tasks.filter (fun t => !completed.contains t)
  let dependencies := tasks.map
    (fun t => (t, (lookupDeps old.dependencies t).filter (fun d => !completed.contains d)))
  let roots := tasks.filter (fun t => (lookupDeps dependencies t).length == 0)
  { dependencies := dependencies, roots := roots, tasks := tasks }

/-- JS object assignment `m[k] = v` on a string-keyed record represented as an
insertion-ordered association list: update the existing entry in place, or
append a new one. -/
def setValue (m : List (String × TaskStatus)) (k : String) (v : TaskStatus) :
    List (String × TaskStatus) :=
  if m.any (fun p => p.1 == k) then m.map (fun p => if p.1 == k then (k, v) else p)
  else m ++ [(k, v)]

/-- JS property read `m[k]` on the results record. -/
def lookupStatus (m : List (String × TaskStatus)) (k : String) : Option TaskStatus :=
  (m.find? (fun p => p.1 == k)).map (fun p => p.2)

/-- Mutable state of `runAllTasks`: the `results` record, the `todo` set, the
`continuedTasks` drain list (recorded by task id) and the event trace. -/
structure RunState where
  results : List (String × TaskStatus)
  todo : Finset String
  continued : List String
  trace : List RunEvent
deriving DecidableEq

/-- The status the loop body resolves for one outcome: the first event's
`success` flag maps to success/failure, and `status` keeps its initial
`'failure'` value when the adapter raises or the first event has no value. -/
def execStatus : ExecOutcome → TaskStatus
  | .yields s _ => if s then .success else .failure
  | .raises => .failure
  | .doneNoValue => .failure

/-- Whether the loop body reaches `completed.push(task.id)`: only when a
first event with a destructurable value was obtained. -/
def execCompletes : ExecOutcome → Bool
  | .yields _ _ => true
  | .raises => false
  | .doneNoValue => false

/-- Whether the loop body pushes a background drain
(`continuedTasks.push(exhaustAsyncIterator(...))`): only when the first
event was obtained and was not yet `done`. -/
def execDrains : ExecOutcome → Bool
  | .yields _ d => !d
  | .raises => false
  | .doneNoValue => false

/-- The events one loop-body iteration appends to the trace, in order:
`lifeCycle.startTasks`, `lifeCycle.scheduleTask`, the `runExecutor` dispatch,
`logger.error` when the `try` block threw, and `lifeCycle.endTasks` with the
exit code `'success' === status ? 0 : 1` and the resolved status. -/
def stepEvents (exec : String → ExecOutcome) (id : String) : List RunEvent :=
  let status := execStatus (exec id)
  let code : Nat := if status = TaskStatus.success then 0 else 1
  [RunEvent.startTasks id, RunEvent.scheduleTask id, RunEvent.dispatch id]
    ++ (if execCompletes (exec id) then [] else [RunEvent.logError id])
    ++ [RunEvent.endTasks id code status]

/-- Body of the `for (const rootTaskId of todoTaskGraph.roots)` loop for one
root id: lifecycle notifications, the `runExecutor` dispatch, status
resolution (with `logger.error` when the `try` block threw), the optional
background drain, the `completed` push when a first event was obtained,
then `results[task.id] = status` and `todo.delete(task.id)`. -/
def runTaskStep (exec : String → ExecOutcome) (acc : RunState × List String)
    (id : String) : RunState × List String :=
  let st := acc.1
  let out := exec id
  ({ results := setValue st.results id (execStatus out),
     todo := st.todo.erase id,
     continued := if execDrains out then st.continued ++ [id] else st.continued,
     trace := st.trace ++ stepEvents exec id },
   if execCompletes out then acc.2 ++ [id] else acc.2)

/-- One round of the while loop: process every current root in the iteration
order of `graph.roots` (a snapshot — the graph is only replaced after the
round), returning the updated state and this round's `completed` list. -/
def runRound (exec : String → ExecOutcome) (g : TaskGraph) (st : RunState) :
    RunState × List String :=
  g.roots.foldl (runTaskStep exec) (st, [])

/-- The `while (0 < todo.size && prevSize > todo.size)` loop, written with an
explicit iteration bound: the body runs only while `todo.size` is positive
and strictly decreased in the previous round, so at most `todo.size + 1`
rounds ever run and `runLoop` supplies exactly that bound; the `fuel = 0`
branch is unreachable from `runLoop`. -/
def runLoopAux (exec : String → ExecOutcome) :
    Nat → TaskGraph → RunState → RunState
  | 0, _, st => st
  | fuel + 1, g, st =>
    if st.todo.card = 0 then st
    else
      let p := runRound exec g st
      if p.1.todo.card < st.todo.card then
        runLoopAux exec fuel (updateTaskGraph g p.2) p.1
      else p.1

/-- The scheduling while loop of `runAllTasks`. -/
def runLoop (exec : String → ExecOutcome) (g : TaskGraph) (st : RunState) :
    RunState :=
  runLoopAux exec (st.todo.card + 1) g st

/-- The initial results record, `_.zipObject(ids, ids.map(() => 'skipped'))`. -/
def initialResults (ids : List String) : List (String × TaskStatus) :=
  ids.foldl (fun m id => setValue m id TaskStatus.skipped) []

/-- The loop state as `runAllTasks` sets it up before the first round. -/
def initialState (ids : List String) : RunState :=
  { results := initialResults ids,
    todo := ids.toFinset,
    continued := [],
    trace := [] }

/-- The `runAllTasks` loop from `simple-runner.ts`, with the executor boundary
abstracted as `exec` and the submitted `Task[]` reduced to its id list. -/
def runAllTasks (exec : String → ExecOutcome) (taskIds : List String)
    (g : TaskGraph) : RunState :=
  runLoop exec g (initialState taskIds)

/-- The ids passed to `runExecutor`, in chronological order. -/
def dispatches : List RunEvent → List String
  | [] => []
  | RunEvent.dispatch id :: es => id :: dispatches es
  | _ :: es => dispatches es

theorem dispatches_append (a b : List RunEvent) :
    dispatches (a ++ b) = dispatches a ++ dispatches b := by
  induction a with
  | nil => rfl
  | cons e es ih => cases e <;> simp [dispatches, ih]

theorem dispatches_stepEvents (exec : String → ExecOutcome) (id : String) :
    dispatches (stepEvents exec id) = [id] := by
  cases h : execCompletes (exec id) <;>
    simp [stepEvents, h, dispatches_append, dispatches]

theorem keys_setValue (m : List (String × TaskStatus)) (k : String) (v : TaskStatus) :
    (setValue m k v).map Prod.fst =
      if m.any (fun p => p.1 == k) then m.map Prod.fst
      else m.map Prod.fst ++ [k] := by
  unfold setValue
  by_cases h : m.any (fun p => p.1 == k)
  · simp only [h, if_true, List.map_map]
    refine List.map_congr_left (fun p _ => ?_)
    by_cases hp : p.1 = k
    · simp [hp]
    · simp [hp]
  · simp [h]

theorem mem_keys_setValue (m : List (String × TaskStatus)) (k a : String) (v : TaskStatus) :
    a ∈ (setValue m k v).map Prod.fst ↔ a ∈ m.map Prod.fst ∨ a = k := by
  rw [keys_setValue]
  by_cases h : m.any (fun p => p.1 == k)
  · simp only [h, if_true]
    constructor
    · exact fun ha => Or.inl ha
    · rintro (ha | rfl)
      · exact ha
      · rcases List.any_eq_true.mp h with ⟨p, hp, hpk⟩
        rw [show a = p.1 from (eq_of_beq hpk).symm]
        exact List.mem_map_of_mem Prod.fst hp
  · simp [h, or_comm, eq_comm]

theorem find?_update_self (m : List (String × TaskStatus)) (k : String)
    (v : TaskStatus) (h : m.any (fun p => p.1 == k) = true) :
    ((m.map (fun p => if p.1 == k then (k, v) else p)).find? (fun p => p.1 == k))
      = some (k, v) := by
  induction m with
  | nil => simp at h
  | cons p m ih =>
    rw [List.map_cons]
    by_cases hp : p.1 = k
    · rw [show (if p.1 == k then (k, v) else p) = (k, v) from if_pos (beq_iff_eq.mpr hp)]
      exact @List.find?_cons_of_pos _ (fun q => q.1 == k) (k, v) _ (beq_self_eq_true k)
    · have hbeq : ¬((p.1 == k) = true) := fun hb => hp (eq_of_beq hb)
      have h' : m.any (fun p => p.1 == k) = true := by
        rcases List.any_eq_true.mp h with ⟨q, hq, hqk⟩
        rcases List.mem_cons.mp hq with rfl | hq'
        · exact absurd (eq_of_beq hqk) hp
        · exact List.any_eq_true.mpr ⟨q, hq', hqk⟩
      rw [show (if p.1 == k then (k, v) else p) = p from if_neg hbeq,
        @List.find?_cons_of_neg _ (fun q => q.1 == k) p _ hbeq]
      exact ih h'

theorem find?_update_ne (m : List (String × TaskStatus)) (k a : String)
    (v : TaskStatus) (hak : a ≠ k) :
    ((m.map (fun p => if p.1 == k then (k, v) else p)).find? (fun p => p.1 == a))
      = m.find? (fun p => p.1 == a) := by
  induction m with
  | nil => rfl
  | cons p m ih =>
    rw [List.map_cons]
    by_cases hp : p.1 = k
    · have hpa : ¬((p.1 == a) = true) := fun hb => hak ((eq_of_beq hb).symm.trans hp)
      have hka : ¬((k == a) = true) := fun hb => hak (eq_of_beq hb).symm
      rw [show (if p.1 == k then (k, v) else p) = (k, v) from if_pos (beq_iff_eq.mpr hp),
        @List.find?_cons_of_neg _ (fun q => q.1 == a) (k, v) _ hka,
        @List.find?_cons_of_neg _ (fun q => q.1 == a) p _ hpa]
      exact ih
    · rw [show (if p.1 == k then (k, v) else p) = p from
        if_neg (fun hb => hp (eq_of_beq hb))]
      by_cases hpa : p.1 = a
      · rw [@List.find?_cons_of_pos _ (fun q => q.1 == a) p _ (beq_iff_eq.mpr hpa),
          @List.find?_cons_of_pos _ (fun q => q.1 == a) p _ (beq_iff_eq.mpr hpa)]
      · have hpa' : ¬((p.1 == a) = true) := fun hb => hpa (eq_of_beq hb)
        rw [@List.find?_cons_of_neg _ (fun q => q.1 == a) p _ hpa',
          @List.find?_cons_of_neg _ (fun q => q.1 == a) p _ hpa']
        exact ih

theorem find?_append_of_none {α : Type} (p : α → Bool) (l₁ l₂ : List α)
    (h : l₁.find? p = none) : (l₁ ++ l₂).find? p = l₂.find? p := by
  induction l₁ with
  | nil => rfl
  | cons x l ih =>
    by_cases hx : p x
    · simp [List.find?, hx] at h
    · simp only [List.find?, hx, List.cons_append] at *
      exact ih h

theorem find?_append_of_some {α : Type} (p : α → Bool) (l₁ l₂ : List α) (q : α)
    (h : l₁.find? p = some q) : (l₁ ++ l₂).find? p = some q := by
  induction l₁ with
  | nil => simp [List.find?] at h
  | cons x l ih =>
    by_cases hx : p x
    · simp only [List.find?, hx] at *
      exact h
    · simp only [List.find?, hx, List.cons_append] at *
      exact ih h

theorem any_eq_false_find? (m : List (String × TaskStatus)) (k : String)
    (h : m.any (fun p => p.1 == k) = false) :
    m.find? (fun p => p.1 == k) = none := by
  refine List.find?_eq_none.mpr (fun p hp => ?_)
  intro hpk
  have hm : m.any (fun q => q.1 == k) = true := List.any_eq_true.mpr ⟨p, hp, hpk⟩
  rw [h] at hm
  exact Bool.false_ne_true hm

theorem lookupStatus_setValue_self (m : List (String × TaskStatus)) (k : String)
    (v : TaskStatus) : lookupStatus (setValue m k v) k = some v := by
  unfold setValue lookupStatus
  by_cases h : m.any (fun p => p.1 == k)
  · rw [if_pos h, find?_update_self m k v h]
    rfl
  · have hfalse : m.any (fun p => p.1 == k) = false := by
      rwa [Bool.not_eq_true] at h
    rw [if_neg h, find?_append_of_none _ _ _ (any_eq_false_find? m k hfalse)]
    simp [List.find?]

theorem lookupStatus_setValue_ne (m : List (String × TaskStatus)) (k a : String)
    (v : TaskStatus) (hak : a ≠ k) :
    lookupStatus (setValue m k v) a = lookupStatus m a := by
  unfold setValue lookupStatus
  by_cases h : m.any (fun p => p.1 == k)
  · rw [if_pos h, find?_update_ne m k a v hak]
  · rw [if_neg h]
    cases hm : m.find? (fun p => p.1 == a) with
    | none =>
      rw [find?_append_of_none _ _ _ hm]
      have hka : ¬((k == a) = true) := fun hb => hak (eq_of_beq hb).symm
      rw [@List.find?_cons_of_neg _ (fun q => q.1 == a) (k, v) _ hka]
      rfl
    | some q =>
      rw [find?_append_of_some _ _ _ _ hm]

theorem foldl_step_trace (exec : String → ExecOutcome) (l : List String)
    (st : RunState) (c : List String) :
    (l.foldl (runTaskStep exec) (st, c)).1.trace
      = st.trace ++ l.flatMap (stepEvents exec) := by
  induction l generalizing st c with
  | nil => simp
  | cons x l ih =>
    rw [List.foldl_cons]
    rw [show runTaskStep exec (st, c) x
      = ({ results := setValue st.results x (execStatus (exec x)),
           todo := st.todo.erase x,
           continued := if execDrains (exec x) then st.continued ++ [x] else st.continued,
           trace := st.trace ++ stepEvents exec x },
         if execCompletes (exec x) then c ++ [x] else c) from rfl]
    rw [ih]
    simp [List.flatMap_cons, List.append_assoc]

theorem dispatches_flatMap (exec : String → ExecOutcome) (l : List String) :
    dispatches (l.flatMap (stepEvents exec)) = l := by
  induction l with
  | nil => rfl
  | cons x l ih =>
    rw [List.flatMap_cons, dispatches_append, dispatches_stepEvents, ih]
    rfl

theorem foldl_step_dispatches (exec : String → ExecOutcome) (l : List String)
    (st : RunState) (c : List String) :
    dispatches (l.foldl (runTaskStep exec) (st, c)).1.trace
      = dispatches st.trace ++ l := by
  rw [foldl_step_trace, dispatches_append, dispatches_flatMap]

theorem foldl_step_completed (exec : String → ExecOutcome) (l : List String)
    (st : RunState) (c : List String) :
    (l.foldl (runTaskStep exec) (st, c)).2
      = c ++ l.filter (fun r => execCompletes (exec r)) := by
  induction l generalizing st c with
  | nil => simp
  | cons x l ih =>
    rw [List.foldl_cons, ih]
    by_cases hx : execCompletes (exec x)
    · simp [runTaskStep, hx, List.filter_cons]
    · simp only [Bool.not_eq_true] at hx
      simp [runTaskStep, hx, List.filter_cons]

theorem foldl_step_todo (exec : String → ExecOutcome) (l : List String)
    (st : RunState) (c : List String) :
    (l.foldl (runTaskStep exec) (st, c)).1.todo = st.todo \ l.toFinset := by
  induction l generalizing st c with
  | nil => simp
  | cons x l ih =>
    rw [List.foldl_cons, ih]
    show st.todo.erase x \ l.toFinset = _
    ext y
    simp only [Finset.mem_sdiff, Finset.mem_erase, List.mem_toFinset, List.toFinset_cons,
      Finset.mem_insert]
    tauto

theorem foldl_step_results_notMem (exec : String → ExecOutcome) (l : List String)
    (st : RunState) (c : List String) (k : String) (hk : k ∉ l) :
    lookupStatus (l.foldl (runTaskStep exec) (st, c)).1.results k
      = lookupStatus st.results k := by
  induction l generalizing st c with
  | nil => rfl
  | cons x l ih =>
    rw [List.foldl_cons, ih _ _ (fun h => hk (List.mem_cons_of_mem x h))]
    show lookupStatus (setValue st.results x (execStatus (exec x))) k = _
    exact lookupStatus_setValue_ne _ _ _ _ (fun h => hk (h ▸ List.mem_cons_self x l))

theorem foldl_step_results_mem (exec : String → ExecOutcome) (l : List String)
    (st : RunState) (c : List String) (k : String) (hl : l.Nodup) (hk : k ∈ l) :
    lookupStatus (l.foldl (runTaskStep exec) (st, c)).1.results k
      = some (execStatus (exec k)) := by
  induction l generalizing st c with
  | nil => cases hk
  | cons x l ih =>
    rcases List.mem_cons.mp hk with rfl | hk'
    · rw [List.foldl_cons,
        foldl_step_results_notMem exec l _ _ k (List.nodup_cons.mp hl).1]
      show lookupStatus (setValue st.results k (execStatus (exec k))) k = _
      exact lookupStatus_setValue_self _ _ _
    · rw [List.foldl_cons]
      exact ih _ _ (List.nodup_cons.mp hl).2 hk'

theorem foldl_step_keys (exec : String → ExecOutcome) (l : List String)
    (st : RunState) (c : List String) (a : String) :
    a ∈ ((l.foldl (runTaskStep exec) (st, c)).1.results.map Prod.fst)
      ↔ a ∈ st.results.map Prod.fst ∨ a ∈ l := by
  induction l generalizing st c with
  | nil => simp
  | cons x l ih =>
    rw [List.foldl_cons, ih]
    show (a ∈ (setValue st.results x (execStatus (exec x))).map Prod.fst ∨ a ∈ l) ↔ _
    rw [mem_keys_setValue]
    simp only [List.mem_cons]
    tauto

theorem foldl_step_logError (exec : String → ExecOutcome) (l : List String)
    (st : RunState) (c : List String) (id : String) (h1 : id ∈ l)
    (h2 : execCompletes (exec id) = false) :
    RunEvent.logError id ∈ (l.foldl (runTaskStep exec) (st, c)).1.trace := by
  rw [foldl_step_trace]
  refine List.mem_append_right _ (List.mem_flatMap.mpr ⟨id, h1, ?_⟩)
  simp [stepEvents, h2]

theorem lookupDeps_map (l : List String) (F : String → List String) (t : String)
    (ht : t ∈ l) :
    lookupDeps (l.map (fun x => (x, F x))) t = F t := by
  induction l with
  | nil => cases ht
  | cons x l ih =>
    by_cases hx : x == t
    · have : x = t := eq_of_beq hx
      subst this
      simp [lookupDeps, List.find?]
    · rcases List.mem_cons.mp ht with rfl | ht'
      · simp at hx
      · simpa [lookupDeps, List.find?, hx] using ih ht'

theorem mem_tasks_updateTaskGraph (g : TaskGraph) (c : List String) (t : String) :
    t ∈ (updateTaskGraph g c).tasks ↔ t ∈ g.tasks ∧ t ∉ c := by
  show t ∈ g.tasks.filter (fun t => !c.contains t) ↔ _
  rw [List.mem_filter]
  simp

theorem tasks_updateTaskGraph_sub (g : TaskGraph) (c : List String) (t : String)
    (ht : t ∈ (updateTaskGraph g c).tasks) : t ∈ g.tasks :=
  ((mem_tasks_updateTaskGraph g c t).mp ht).1

theorem lookupDeps_updateTaskGraph (g : TaskGraph) (c : List String) (t : String)
    (ht : t ∈ (updateTaskGraph g c).tasks) :
    lookupDeps (updateTaskGraph g c).dependencies t
      = (lookupDeps g.dependencies t).filter (fun d => !c.contains d) := by
  show lookupDeps ((g.tasks.filter (fun t => !c.contains t)).map
    (fun t => (t, (lookupDeps g.dependencies t).filter (fun d => !c.contains d)))) t = _
  exact lookupDeps_map _ _ t ht

theorem mem_roots_updateTaskGraph (g : TaskGraph) (c : List String) (t : String) :
    t ∈ (updateTaskGraph g c).roots
      ↔ t ∈ (updateTaskGraph g c).tasks
        ∧ lookupDeps (updateTaskGraph g c).dependencies t = [] := by
  show t ∈ (updateTaskGraph g c).tasks.filter
    (fun t => (lookupDeps (updateTaskGraph g c).dependencies t).length == 0) ↔ _
  rw [List.mem_filter]
  constructor
  · rintro ⟨h1, h2⟩
    exact ⟨h1, List.length_eq_zero.mp (beq_iff_eq.mp h2)⟩
  · rintro ⟨h1, h2⟩
    refine ⟨h1, beq_iff_eq.mpr ?_⟩
    rw [h2]
    rfl

theorem roots_updateTaskGraph_sub (g : TaskGraph) (c : List String) (t : String)
    (ht : t ∈ (updateTaskGraph g c).roots) : t ∈ (updateTaskGraph g c).tasks :=
  ((mem_roots_updateTaskGraph g c t).mp ht).1

theorem roots_updateTaskGraph_deps (g : TaskGraph) (c : List String) (t : String)
    (ht : t ∈ (updateTaskGraph g c).roots) :
    lookupDeps (updateTaskGraph g c).dependencies t = [] :=
  ((mem_roots_updateTaskGraph g c t).mp ht).2

theorem nodup_tasks_updateTaskGraph (g : TaskGraph) (c : List String)
    (h : g.tasks.Nodup) : (updateTaskGraph g c).tasks.Nodup :=
  List.Nodup.filter _ h

theorem nodup_roots_updateTaskGraph (g : TaskGraph) (c : List String)
    (h : g.tasks.Nodup) : (updateTaskGraph g c).roots.Nodup :=
  List.Nodup.filter _ (List.Nodup.filter _ h)

theorem roots_updateTaskGraph_eq (g : TaskGraph) (c : List String) :
    (updateTaskGraph g c).roots = (updateTaskGraph g c).tasks.filter
      (fun t => (lookupDeps (updateTaskGraph g c).dependencies t).length == 0) := rfl

theorem runRound_trace (exec : String → ExecOutcome) (g : TaskGraph) (st : RunState) :
    (runRound exec g st).1.trace = st.trace ++ g.roots.flatMap (stepEvents exec) :=
  foldl_step_trace exec g.roots st []

theorem runRound_dispatches (exec : String → ExecOutcome) (g : TaskGraph) (st : RunState) :
    dispatches (runRound exec g st).1.trace = dispatches st.trace ++ g.roots :=
  foldl_step_dispatches exec g.roots st []

theorem runRound_completed (exec : String → ExecOutcome) (g : TaskGraph) (st : RunState) :
    (runRound exec g st).2 = g.roots.filter (fun r => execCompletes (exec r)) := by
  show (g.roots.foldl (runTaskStep exec) (st, [])).2 = _
  rw [foldl_step_completed, List.nil_append]

theorem runRound_todo (exec : String → ExecOutcome) (g : TaskGraph) (st : RunState) :
    (runRound exec g st).1.todo = st.todo \ g.roots.toFinset :=
  foldl_step_todo exec g.roots st []

theorem runRound_results_mem (exec : String → ExecOutcome) (g : TaskGraph)
    (st : RunState) (k : String) (h : g.roots.Nodup) (hk : k ∈ g.roots) :
    lookupStatus (runRound exec g st).1.results k = some (execStatus (exec k)) :=
  foldl_step_results_mem exec g.roots st [] k h hk

theorem runRound_results_notMem (exec : String → ExecOutcome) (g : TaskGraph)
    (st : RunState) (k : String) (hk : k ∉ g.roots) :
    lookupStatus (runRound exec g st).1.results k = lookupStatus st.results k :=
  foldl_step_results_notMem exec g.roots st [] k hk

theorem runRound_keys (exec : String → ExecOutcome) (g : TaskGraph) (st : RunState)
    (a : String) :
    a ∈ ((runRound exec g st).1.results.map Prod.fst)
      ↔ a ∈ st.results.map Prod.fst ∨ a ∈ g.roots :=
  foldl_step_keys exec g.roots st [] a

theorem runLoopAux_succ (exec : String → ExecOutcome) (fuel : Nat) (g : TaskGraph)
    (st : RunState) :
    runLoopAux exec (fuel + 1) g st =
      if st.todo.card = 0 then st
      else
        if (runRound exec g st).1.todo.card < st.todo.card then
          runLoopAux exec fuel (updateTaskGraph g (runRound exec g st).2)
            (runRound exec g st).1
        else (runRound exec g st).1 := rfl

theorem runLoopAux_trace_mono (exec : String → ExecOutcome) (fuel : Nat) :
    ∀ (g : TaskGraph) (st : RunState),
    ∃ Δ, (runLoopAux exec fuel g st).trace = st.trace ++ Δ := by
  induction fuel with
  | zero => exact fun g st => ⟨[], (List.append_nil _).symm⟩
  | succ fuel ih =>
    intro g st
    rw [runLoopAux_succ]
    by_cases h0 : st.todo.card = 0
    · exact ⟨[], by rw [if_pos h0, List.append_nil]⟩
    · rw [if_neg h0]
      by_cases hlt : (runRound exec g st).1.todo.card < st.todo.card
      · rw [if_pos hlt]
        rcases ih (updateTaskGraph g (runRound exec g st).2) (runRound exec g st).1
          with ⟨Δ, hΔ⟩
        exact ⟨g.roots.flatMap (stepEvents exec) ++ Δ,
          by rw [hΔ, runRound_trace, List.append_assoc]⟩
      · rw [if_neg hlt]
        exact ⟨g.roots.flatMap (stepEvents exec), runRound_trace exec g st⟩

theorem runLoopAux_count_dispatch (exec : String → ExecOutcome) (t : String)
    (hc : execCompletes (exec t) = true) (fuel : Nat) :
    ∀ (g : TaskGraph) (st : RunState),
    g.tasks.Nodup → g.roots.Nodup → (∀ r ∈ g.roots, r ∈ g.tasks) →
    ((dispatches (runLoopAux exec fuel g st).trace).count t
      ≤ (dispatches st.trace).count t + (if t ∈ g.tasks then 1 else 0)) := by
  induction fuel with
  | zero =>
    intro g st _ _ _
    exact Nat.le_add_right _ _
  | succ fuel ih =>
    intro g st h1 h2 h3
    rw [runLoopAux_succ]
    by_cases h0 : st.todo.card = 0
    · rw [if_pos h0]
      exact Nat.le_add_right _ _
    · rw [if_neg h0]
      have hround : (dispatches (runRound exec g st).1.trace).count t
          = (dispatches st.trace).count t + g.roots.count t := by
        rw [runRound_dispatches, List.count_append]
      by_cases hlt : (runRound exec g st).1.todo.card < st.todo.card
      · rw [if_pos hlt]
        have hrec := ih (updateTaskGraph g (runRound exec g st).2) (runRound exec g st).1
          (nodup_tasks_updateTaskGraph g _ h1) (nodup_roots_updateTaskGraph g _ h1)
          (fun r hr => roots_updateTaskGraph_sub g _ r hr)
        by_cases hmem : t ∈ g.roots
        · have hcount1 : g.roots.count t = 1 := List.count_eq_one_of_mem h2 hmem
          have htask : t ∈ g.tasks := h3 t hmem
          have hnot : t ∉ (updateTaskGraph g (runRound exec g st).2).tasks := by
            intro hmem'
            rcases (mem_tasks_updateTaskGraph g _ t).mp hmem' with ⟨_, hnc⟩
            apply hnc
            rw [runRound_completed]
            exact List.mem_filter.mpr ⟨hmem, hc⟩
          rw [if_neg hnot, Nat.add_zero] at hrec
          rw [if_pos htask]
          calc (dispatches (runLoopAux exec fuel (updateTaskGraph g (runRound exec g st).2)
                (runRound exec g st).1).trace).count t
              ≤ (dispatches (runRound exec g st).1.trace).count t := hrec
            _ = (dispatches st.trace).count t + 1 := by rw [hround, hcount1]
        · have hcount0 : g.roots.count t = 0 := List.count_eq_zero_of_not_mem hmem
          have hmono : (if t ∈ (updateTaskGraph g (runRound exec g st).2).tasks then 1 else 0)
              ≤ (if t ∈ g.tasks then 1 else 0) := by
            by_cases ht' : t ∈ (updateTaskGraph g (runRound exec g st).2).tasks
            · rw [if_pos ht', if_pos (tasks_updateTaskGraph_sub g _ t ht')]
            · rw [if_neg ht']
              exact Nat.zero_le _
          calc (dispatches (runLoopAux exec fuel (updateTaskGraph g (runRound exec g st).2)
                (runRound exec g st).1).trace).count t
              ≤ (dispatches (runRound exec g st).1.trace).count t
                + (if t ∈ (updateTaskGraph g (runRound exec g st).2).tasks then 1 else 0) := hrec
            _ = (dispatches st.trace).count t
                + (if t ∈ (updateTaskGraph g (runRound exec g st).2).tasks then 1 else 0) := by
                  rw [hround, hcount0, Nat.add_zero]
            _ ≤ (dispatches st.trace).count t + (if t ∈ g.tasks then 1 else 0) :=
                  Nat.add_le_add_left hmono _
      · rw [if_neg hlt, hround]
        by_cases hmem : t ∈ g.roots
        · rw [List.count_eq_one_of_mem h2 hmem, if_pos (h3 t hmem)]
        · rw [List.count_eq_zero_of_not_mem hmem]
          exact Nat.le_add_right _ _

theorem mem_filter_notContains (l c : List String) (a : String) :
    a ∈ l.filter (fun d => !c.contains d) ↔ a ∈ l ∧ a ∉ c := by
  rw [List.mem_filter]
  simp

theorem runLoopAux_trace_mem (exec : String → ExecOutcome) (fuel : Nat)
    (g : TaskGraph) (st : RunState) (e : RunEvent) (h : e ∈ st.trace) :
    e ∈ (runLoopAux exec fuel g st).trace := by
  rcases runLoopAux_trace_mono exec fuel g st with ⟨Δ, hΔ⟩
  rw [hΔ]
  exact List.mem_append_left _ h

theorem runLoopAux_status_stable (exec : String → ExecOutcome) (id : String)
    (fuel : Nat) :
    ∀ (g : TaskGraph) (st : RunState),
    g.tasks.Nodup → g.roots.Nodup →
    lookupStatus st.results id = some (execStatus (exec id)) →
    lookupStatus (runLoopAux exec fuel g st).results id
      = some (execStatus (exec id)) := by
  induction fuel with
  | zero => exact fun g st _ _ h => h
  | succ fuel ih =>
    intro g st h1 h2 hstat
    rw [runLoopAux_succ]
    by_cases h0 : st.todo.card = 0
    · rwa [if_pos h0]
    · rw [if_neg h0]
      have hst' : lookupStatus (runRound exec g st).1.results id
          = some (execStatus (exec id)) := by
        by_cases hmem : id ∈ g.roots
        · exact runRound_results_mem exec g st id h2 hmem
        · rw [runRound_results_notMem exec g st id hmem]
          exact hstat
      by_cases hlt : (runRound exec g st).1.todo.card < st.todo.card
      · rw [if_pos hlt]
        exact ih _ _ (nodup_tasks_updateTaskGraph g _ h1)
          (nodup_roots_updateTaskGraph g _ h1) hst'
      · rwa [if_neg hlt]

theorem runLoopAux_dispatched_status (exec : String → ExecOutcome) (id : String)
    (fuel : Nat) :
    ∀ (g : TaskGraph) (st : RunState),
    g.tasks.Nodup → g.roots.Nodup →
    id ∈ dispatches (runLoopAux exec fuel g st).trace →
    id ∈ dispatches st.trace ∨
      lookupStatus (runLoopAux exec fuel g st).results id
        = some (execStatus (exec id)) := by
  induction fuel with
  | zero => exact fun g st _ _ h => Or.inl h
  | succ fuel ih =>
    intro g st h1 h2 h
    rw [runLoopAux_succ] at h ⊢
    by_cases h0 : st.todo.card = 0
    · rw [if_pos h0] at h ⊢
      exact Or.inl h
    · rw [if_neg h0] at h ⊢
      by_cases hlt : (runRound exec g st).1.todo.card < st.todo.card
      · rw [if_pos hlt] at h ⊢
        rcases ih _ _ (nodup_tasks_updateTaskGraph g _ h1)
          (nodup_roots_updateTaskGraph g _ h1) h with h' | h'
        · rw [runRound_dispatches] at h'
          rcases List.mem_append.mp h' with h'' | h''
          · exact Or.inl h''
          · refine Or.inr (runLoopAux_status_stable exec id fuel _ _
              (nodup_tasks_updateTaskGraph g _ h1)
              (nodup_roots_updateTaskGraph g _ h1)
              (runRound_results_mem exec g st id h2 h''))
        · exact Or.inr h'
      · rw [if_neg hlt] at h ⊢
        rw [runRound_dispatches] at h
        rcases List.mem_append.mp h with h'' | h''
        · exact Or.inl h''
        · exact Or.inr (runRound_results_mem exec g st id h2 h'')

theorem runLoopAux_logged (exec : String → ExecOutcome) (id : String)
    (hnc : execCompletes (exec id) = false) (fuel : Nat) :
    ∀ (g : TaskGraph) (st : RunState),
    id ∈ dispatches (runLoopAux exec fuel g st).trace →
    id ∈ dispatches st.trace ∨
      RunEvent.logError id ∈ (runLoopAux exec fuel g st).trace := by
  induction fuel with
  | zero => exact fun g st h => Or.inl h
  | succ fuel ih =>
    intro g st h
    rw [runLoopAux_succ] at h ⊢
    by_cases h0 : st.todo.card = 0
    · rw [if_pos h0] at h ⊢
      exact Or.inl h
    · rw [if_neg h0] at h ⊢
      by_cases hlt : (runRound exec g st).1.todo.card < st.todo.card
      · rw [if_pos hlt] at h ⊢
        rcases ih _ _ h with h' | h'
        · rw [runRound_dispatches] at h'
          rcases List.mem_append.mp h' with h'' | h''
          · exact Or.inl h''
          · refine Or.inr (runLoopAux_trace_mem exec fuel _ _ _ ?_)
            exact foldl_step_logError exec g.roots st [] id h'' hnc
        · exact Or.inr h'
      · rw [if_neg hlt] at h ⊢
        rw [runRound_dispatches] at h
        rcases List.mem_append.mp h with h'' | h''
        · exact Or.inl h''
        · exact Or.inr (foldl_step_logError exec g.roots st [] id h'' hnc)

theorem runLoopAux_blocked (exec : String → ExecOutcome) (x d : String)
    (hx : execCompletes (exec x) = false) (fuel : Nat) :
    ∀ (g : TaskGraph) (st : RunState),
    (∀ r ∈ g.roots, lookupDeps g.dependencies r = []) →
    d ∈ g.tasks → x ∈ lookupDeps g.dependencies d →
    d ∈ dispatches (runLoopAux exec fuel g st).trace →
    d ∈ dispatches st.trace := by
  induction fuel with
  | zero => exact fun g st _ _ _ h => h
  | succ fuel ih =>
    intro g st hre hd hxd h
    have hdnr : d ∉ g.roots := by
      intro hr
      rw [hre d hr] at hxd
      cases hxd
    rw [runLoopAux_succ] at h
    by_cases h0 : st.todo.card = 0
    · rwa [if_pos h0] at h
    · rw [if_neg h0] at h
      have hdnc : d ∉ (runRound exec g st).2 := by
        rw [runRound_completed]
        intro hc
        exact hdnr (List.mem_of_mem_filter hc)
      by_cases hlt : (runRound exec g st).1.todo.card < st.todo.card
      · rw [if_pos hlt] at h
        have hd' : d ∈ (updateTaskGraph g (runRound exec g st).2).tasks :=
          (mem_tasks_updateTaskGraph g _ d).mpr ⟨hd, hdnc⟩
        have hxd' : x ∈ lookupDeps
            (updateTaskGraph g (runRound exec g st).2).dependencies d := by
          rw [lookupDeps_updateTaskGraph g _ d hd']
          refine (mem_filter_notContains _ _ x).mpr ⟨hxd, ?_⟩
          rw [runRound_completed]
          intro hxc
          rw [List.mem_filter.mp hxc |>.2] at hx
          cases hx
        have h' := ih _ _ (fun r hr => roots_updateTaskGraph_deps g _ r hr) hd' hxd' h
        rw [runRound_dispatches] at h'
        rcases List.mem_append.mp h' with h'' | h''
        · exact h''
        · exact absurd h'' hdnr
      · rw [if_neg hlt, runRound_dispatches] at h
        rcases List.mem_append.mp h with h'' | h''
        · exact h''
        · exact absurd h'' hdnr

theorem mem_of_getElem?_some {α : Type} {l : List α} {i : Nat} {a : α}
    (h : l[i]? = some a) : a ∈ l := by
  rcases List.getElem?_eq_some.mp h with ⟨hi, rfl⟩
  exact List.getElem_mem hi

theorem runLoopAux_deps_before (exec : String → ExecOutcome)
    (F0 : String → List String) (fuel : Nat) :
    ∀ (g : TaskGraph) (st : RunState),
    (∀ r ∈ g.roots, r ∈ g.tasks) →
    (∀ r ∈ g.roots, lookupDeps g.dependencies r = []) →
    (∀ t ∈ g.tasks, ∀ d ∈ F0 t,
      d ∈ lookupDeps g.dependencies t ∨ d ∈ dispatches st.trace) →
    ∀ i t, (dispatches (runLoopAux exec fuel g st).trace)[i]? = some t →
      (dispatches st.trace).length ≤ i →
      ∀ d ∈ F0 t, d ∈ (dispatches (runLoopAux exec fuel g st).trace).take i := by
  induction fuel with
  | zero =>
    intro g st _ _ _ i t hi hlen d _
    rw [show runLoopAux exec 0 g st = st from rfl] at hi
    rw [List.getElem?_eq_none hlen] at hi
    cases hi
  | succ fuel ih =>
    intro g st hrt hre hP1 i t hi hlen d hd
    rw [runLoopAux_succ] at hi ⊢
    by_cases h0 : st.todo.card = 0
    · rw [if_pos h0] at hi ⊢
      rw [List.getElem?_eq_none hlen] at hi
      cases hi
    · rw [if_neg h0] at hi ⊢
      have hround : dispatches (runRound exec g st).1.trace
          = dispatches st.trace ++ g.roots := runRound_dispatches exec g st
      by_cases hlt : (runRound exec g st).1.todo.card < st.todo.card
      · rw [if_pos hlt] at hi ⊢
        have hP1' : ∀ t ∈ (updateTaskGraph g (runRound exec g st).2).tasks,
            ∀ d ∈ F0 t,
            d ∈ lookupDeps (updateTaskGraph g (runRound exec g st).2).dependencies t
              ∨ d ∈ dispatches (runRound exec g st).1.trace := by
          intro t' ht' d' hd'
          rcases hP1 t' (tasks_updateTaskGraph_sub g _ t' ht') d' hd' with hin | hin
          · by_cases hc : d' ∈ (runRound exec g st).2
            · refine Or.inr ?_
              rw [hround]
              refine List.mem_append_right _ ?_
              rw [runRound_completed] at hc
              exact List.mem_of_mem_filter hc
            · refine Or.inl ?_
              rw [lookupDeps_updateTaskGraph g _ t' ht']
              exact (mem_filter_notContains _ _ d').mpr ⟨hin, hc⟩
          · refine Or.inr ?_
            rw [hround]
            exact List.mem_append_left _ hin
        by_cases hcase : (dispatches (runRound exec g st).1.trace).length ≤ i
        · exact ih _ _ (fun r hr => roots_updateTaskGraph_sub g _ r hr)
            (fun r hr => roots_updateTaskGraph_deps g _ r hr) hP1' i t hi hcase d hd
        · push_neg at hcase
          rcases runLoopAux_trace_mono exec fuel
              (updateTaskGraph g (runRound exec g st).2) (runRound exec g st).1
            with ⟨Δ, hΔ⟩
          have hdisp : dispatches (runLoopAux exec fuel
              (updateTaskGraph g (runRound exec g st).2) (runRound exec g st).1).trace
              = dispatches (runRound exec g st).1.trace ++ dispatches Δ := by
            rw [hΔ, dispatches_append]
          rw [hdisp] at hi
          rw [List.getElem?_append_left hcase] at hi
          rw [hround] at hi hcase
          rw [List.getElem?_append_right hlen] at hi
          have ht : t ∈ g.roots := mem_of_getElem?_some hi
          have hdP : d ∈ dispatches st.trace := by
            rcases hP1 t (hrt t ht) d hd with hin | hin
            · rw [hre t ht] at hin
              cases hin
            · exact hin
          rw [hdisp, hround]
          rw [List.take_append_eq_append_take, List.take_append_eq_append_take,
            List.take_of_length_le hlen]
          exact List.mem_append_left _ (List.mem_append_left _ hdP)
      · rw [if_neg hlt] at hi ⊢
        rw [hround] at hi ⊢
        rw [List.getElem?_append_right hlen] at hi
        have ht : t ∈ g.roots := mem_of_getElem?_some hi
        have hdP : d ∈ dispatches st.trace := by
          rcases hP1 t (hrt t ht) d hd with hin | hin
          · rw [hre t ht] at hin
            cases hin
          · exact hin
        rw [List.take_append_eq_append_take, List.take_of_length_le hlen]
        exact List.mem_append_left _ hdP

theorem mem_keys_foldl_setValue (ids : List String) :
    ∀ (m : List (String × TaskStatus)) (a : String),
    a ∈ ((ids.foldl (fun m id => setValue m id TaskStatus.skipped) m).map Prod.fst)
      ↔ a ∈ m.map Prod.fst ∨ a ∈ ids := by
  induction ids with
  | nil =>
    intro m a
    simp
  | cons x ids ih =>
    intro m a
    rw [List.foldl_cons, ih, mem_keys_setValue]
    simp only [List.mem_cons]
    tauto

theorem mem_keys_initialResults (ids : List String) (a : String) :
    a ∈ (initialResults ids).map Prod.fst ↔ a ∈ ids := by
  show a ∈ ((ids.foldl (fun m id => setValue m id TaskStatus.skipped) []).map Prod.fst) ↔ _
  rw [mem_keys_foldl_setValue]
  simp

theorem lookupStatus_foldl_setValue (ids : List String) :
    ∀ (m : List (String × TaskStatus)) (id : String),
    (id ∈ ids ∨ lookupStatus m id = some TaskStatus.skipped) →
    lookupStatus (ids.foldl (fun m id => setValue m id TaskStatus.skipped) m) id
      = some TaskStatus.skipped := by
  induction ids with
  | nil =>
    intro m id h
    rcases h with h | h
    · cases h
    · exact h
  | cons x ids ih =>
    intro m id h
    rw [List.foldl_cons]
    by_cases hx : id = x
    · exact ih _ id (Or.inr (hx ▸ lookupStatus_setValue_self m x TaskStatus.skipped))
    · rcases h with h | h
      · rcases List.mem_cons.mp h with rfl | h'
        · exact absurd rfl hx
        · exact ih _ id (Or.inl h')
      · refine ih _ id (Or.inr ?_)
        rw [lookupStatus_setValue_ne m x id TaskStatus.skipped hx]
        exact h

theorem lookupStatus_initialResults (ids : List String) (id : String) (h : id ∈ ids) :
    lookupStatus (initialResults ids) id = some TaskStatus.skipped :=
  lookupStatus_foldl_setValue ids [] id (Or.inl h)

theorem execStatus_of_completes (o : ExecOutcome) (h : execCompletes o = true) :
    execStatus o = TaskStatus.success ∨ execStatus o = TaskStatus.failure := by
  cases o with
  | yields s d => cases s <;> simp [execStatus]
  | raises => simp [execCompletes] at h
  | doneNoValue => simp [execCompletes] at h

theorem runLoopAux_completes_all (exec : String → ExecOutcome)
    (hexec : ∀ id, execCompletes (exec id) = true)
    (f : String → Nat) (L : List String) (fuel : Nat) :
    ∀ (g : TaskGraph) (st : RunState),
    st.todo.card + 1 ≤ fuel →
    g.tasks.Nodup →
    g.roots = g.tasks.filter (fun t => (lookupDeps g.dependencies t).length == 0) →
    (∀ t ∈ g.tasks, ∀ d ∈ lookupDeps g.dependencies t, d ∈ g.tasks) →
    (∀ t ∈ g.tasks, ∀ d ∈ lookupDeps g.dependencies t, f d < f t) →
    st.todo = g.tasks.toFinset →
    (∀ a ∈ g.tasks, a ∈ L) →
    (∀ a, a ∈ st.results.map Prod.fst ↔ a ∈ L) →
    (∀ id ∈ L, id ∉ st.todo →
      lookupStatus st.results id = some TaskStatus.success
        ∨ lookupStatus st.results id = some TaskStatus.failure) →
    ((runLoopAux exec fuel g st).todo = ∅
      ∧ (∀ a, a ∈ (runLoopAux exec fuel g st).results.map Prod.fst ↔ a ∈ L)
      ∧ (∀ id ∈ L, lookupStatus (runLoopAux exec fuel g st).results id
            = some TaskStatus.success
          ∨ lookupStatus (runLoopAux exec fuel g st).results id
            = some TaskStatus.failure)) := by
  induction fuel with
  | zero =>
    intro g st hfuel _ _ _ _ _ _ _ _
    exact absurd hfuel (by omega)
  | succ fuel ih =>
    intro g st hfuel h1 hB hC hD hE htl hF hG
    rw [runLoopAux_succ]
    by_cases h0 : st.todo.card = 0
    · rw [if_pos h0]
      refine ⟨Finset.card_eq_zero.mp h0, hF, fun id hid => hG id hid ?_⟩
      rw [Finset.card_eq_zero.mp h0]
      exact Finset.not_mem_empty id
    · rw [if_neg h0]
      have htasks_ne : g.tasks ≠ [] := by
        intro hnil
        rw [hE, hnil] at h0
        simp at h0
      have hne : g.tasks.toFinset.Nonempty := by
        rcases List.exists_mem_of_ne_nil g.tasks htasks_ne with ⟨t₀, ht₀⟩
        exact ⟨t₀, List.mem_toFinset.mpr ht₀⟩
      rcases Finset.exists_min_image g.tasks.toFinset f hne with ⟨t₀, ht₀f, hmin⟩
      have ht₀ : t₀ ∈ g.tasks := List.mem_toFinset.mp ht₀f
      have hdeps₀ : lookupDeps g.dependencies t₀ = [] := by
        rw [List.eq_nil_iff_forall_not_mem]
        intro d hdmem
        have hdt : d ∈ g.tasks := hC t₀ ht₀ d hdmem
        have hlt₀ := hD t₀ ht₀ d hdmem
        have hge := hmin d (List.mem_toFinset.mpr hdt)
        omega
      have ht₀r : t₀ ∈ g.roots := by
        rw [hB]
        refine List.mem_filter.mpr ⟨ht₀, ?_⟩
        rw [hdeps₀]
        rfl
      have hrootsNodup : g.roots.Nodup := by
        rw [hB]
        exact h1.filter _
      have hrootsSub : ∀ r ∈ g.roots, r ∈ g.tasks := by
        intro r hr
        rw [hB] at hr
        exact (List.mem_filter.mp hr).1
      have hcompl : (runRound exec g st).2 = g.roots := by
        rw [runRound_completed]
        exact List.filter_eq_self.mpr (fun r _ => hexec r)
      have htodo' : (runRound exec g st).1.todo = st.todo \ g.roots.toFinset :=
        runRound_todo exec g st
      have hsub : g.roots.toFinset ⊆ st.todo := by
        intro r hr
        rw [hE]
        exact List.mem_toFinset.mpr (hrootsSub r (List.mem_toFinset.mp hr))
      have hlt : (runRound exec g st).1.todo.card < st.todo.card := by
        rw [htodo']
        exact Finset.card_lt_card
          (Finset.sdiff_ssubset hsub ⟨t₀, List.mem_toFinset.mpr ht₀r⟩)
      rw [if_pos hlt]
      have hfuel' : (runRound exec g st).1.todo.card + 1 ≤ fuel := by omega
      have h1' := nodup_tasks_updateTaskGraph g (runRound exec g st).2 h1
      have hB' := roots_updateTaskGraph_eq g (runRound exec g st).2
      have hC' : ∀ t ∈ (updateTaskGraph g (runRound exec g st).2).tasks,
          ∀ d ∈ lookupDeps (updateTaskGraph g (runRound exec g st).2).dependencies t,
          d ∈ (updateTaskGraph g (runRound exec g st).2).tasks := by
        intro t ht d hd
        rw [lookupDeps_updateTaskGraph g _ t ht] at hd
        rcases (mem_filter_notContains _ _ d).mp hd with ⟨hd1, hd2⟩
        exact (mem_tasks_updateTaskGraph g _ d).mpr
          ⟨hC t (tasks_updateTaskGraph_sub g _ t ht) d hd1, hd2⟩
      have hD' : ∀ t ∈ (updateTaskGraph g (runRound exec g st).2).tasks,
          ∀ d ∈ lookupDeps (updateTaskGraph g (runRound exec g st).2).dependencies t,
          f d < f t := by
        intro t ht d hd
        rw [lookupDeps_updateTaskGraph g _ t ht] at hd
        rcases (mem_filter_notContains _ _ d).mp hd with ⟨hd1, _⟩
        exact hD t (tasks_updateTaskGraph_sub g _ t ht) d hd1
      have hE' : (runRound exec g st).1.todo
          = (updateTaskGraph g (runRound exec g st).2).tasks.toFinset := by
        rw [htodo', hE]
        ext a
        rw [Finset.mem_sdiff, List.mem_toFinset, List.mem_toFinset, List.mem_toFinset,
          mem_tasks_updateTaskGraph, hcompl]
      have htl' : ∀ a ∈ (updateTaskGraph g (runRound exec g st).2).tasks, a ∈ L :=
        fun a ha => htl a (tasks_updateTaskGraph_sub g _ a ha)
      have hF' : ∀ a, a ∈ (runRound exec g st).1.results.map Prod.fst ↔ a ∈ L := by
        intro a
        rw [runRound_keys]
        constructor
        · rintro (ha | ha)
          · exact (hF a).mp ha
          · exact htl a (hrootsSub a ha)
        · intro ha
          exact Or.inl ((hF a).mpr ha)
      have hG' : ∀ id ∈ L, id ∉ (runRound exec g st).1.todo →
          lookupStatus (runRound exec g st).1.results id = some TaskStatus.success
            ∨ lookupStatus (runRound exec g st).1.results id
              = some TaskStatus.failure := by
        intro id hid hnotin
        by_cases hidr : id ∈ g.roots
        · have hval := runRound_results_mem exec g st id hrootsNodup hidr
          rcases execStatus_of_completes (exec id) (hexec id) with h | h
          · exact Or.inl (by rw [hval, h])
          · exact Or.inr (by rw [hval, h])
        · have hidnt : id ∉ st.todo := by
            intro hin
            rw [htodo'] at hnotin
            exact hnotin (Finset.mem_sdiff.mpr
              ⟨hin, fun hc => hidr (List.mem_toFinset.mp hc)⟩)
          rw [runRound_results_notMem exec g st id hidr]
          exact hG id hid hidnt
      exact ih _ _ hfuel' h1' hB' hC' hD' hE' htl' hF' hG'

theorem TaskGraph.ext' (x y : TaskGraph) (h1 : x.tasks = y.tasks)
    (h2 : x.dependencies = y.dependencies) (h3 : x.roots = y.roots) : x = y := by
  cases x
  cases y
  cases h1
  cases h2
  cases h3
  rfl

theorem contains_append_eq (A B : List String) (a : String) :
    ((A ++ B).contains a) = (A.contains a || B.contains a) := by
  by_cases ha : a ∈ A <;> by_cases hb : a ∈ B <;>
    simp [ha, hb]

theorem runLoop_of_roots_nil (exec : String → ExecOutcome) (g : TaskGraph)
    (st : RunState) (h : g.roots = []) : runLoop exec g st = st := by
  have hround : runRound exec g st = (st, []) := by
    show g.roots.foldl (runTaskStep exec) (st, []) = (st, [])
    rw [h]
    rfl
  rw [runLoop, runLoopAux_succ, hround]
  by_cases h0 : st.todo.card = 0
  · rw [if_pos h0]
  · rw [if_neg h0, if_neg (lt_irrefl st.todo.card)]

/-- C1 (counterexample): the claim "no task id is passed to runExecutor in more
than one round" fails on the code. For the two-task graph where `B` depends on
`A` and the adapter for `A` raises, `A` is not added to `completed`, stays a
root of the unchanged graph, and is dispatched again in round 2 (round 1 made
progress because `todo.delete("A")` still ran): `A` is passed to `runExecutor`
exactly twice. -/
theorem c1_counterexample :
    ((dispatches (runAllTasks
        (fun id => if id = "A" then ExecOutcome.raises else ExecOutcome.yields true true)
        ["A", "B"]
        ⟨["A", "B"], [("A", []), ("B", ["A"])], ["A"]⟩).trace).count "A") = 2 := by
  decide

/-- C1 (amended): a task whose adapter call yields a first event is dispatched
at most once over the whole run (it is pushed to `completed` and removed from
the graph, so it can never be a root again); only a task whose adapter call
raised (or produced no first value) can be dispatched again in a later round.
Assumes the initial graph has unique task keys and a duplicate-free root list
contained in the task set. -/
theorem c1_amended_dispatch_at_most_once (exec : String → ExecOutcome)
    (L : List String) (g : TaskGraph) (t : String)
    (h1 : g.tasks.Nodup) (h2 : g.roots.Nodup) (h3 : ∀ r ∈ g.roots, r ∈ g.tasks)
    (hc : execCompletes (exec t) = true) :
    ((dispatches (runAllTasks exec L g).trace).count t) ≤ 1 := by
  have h := runLoopAux_count_dispatch exec t hc
    (({ results := initialResults L, todo := L.toFinset, continued := [],
        trace := [] } : RunState).todo.card + 1) g
    { results := initialResults L, todo := L.toFinset, continued := [], trace := [] }
    h1 h2 h3
  have hle : (dispatches (runAllTasks exec L g).trace).count t
      ≤ 0 + (if t ∈ g.tasks then 1 else 0) := h
  by_cases ht : t ∈ g.tasks
  · rw [if_pos ht] at hle
    omega
  · rw [if_neg ht] at hle
    omega

/-- C1 (witness): the amended theorem applied to the counterexample run for the
task `B`, whose adapter yields, so it is dispatched at most once. -/
theorem c1_amended_witness :
    (["A", "B"] : List String).Nodup ∧ (["A"] : List String).Nodup
    ∧ (∀ r ∈ (["A"] : List String), r ∈ (["A", "B"] : List String))
    ∧ execCompletes ((fun id => if id = "A" then ExecOutcome.raises
        else ExecOutcome.yields true true) "B") = true
    ∧ ((dispatches (runAllTasks
        (fun id => if id = "A" then ExecOutcome.raises else ExecOutcome.yields true true)
        ["A", "B"]
        ⟨["A", "B"], [("A", []), ("B", ["A"])], ["A"]⟩).trace).count "B") ≤ 1 :=
  ⟨by decide, by decide, by decide, by decide,
   c1_amended_dispatch_at_most_once
     (fun id => if id = "A" then ExecOutcome.raises else ExecOutcome.yields true true)
     ["A", "B"] ⟨["A", "B"], [("A", []), ("B", ["A"])], ["A"]⟩ "B"
     (by decide) (by decide) (by decide) (by decide)⟩

/-- C4: `updateTaskGraph g c` removes from `tasks` exactly the ids in `c`
(never an id outside `c`), prunes exactly the ids in `c` from each remaining
task's dependency list, and recomputes `roots` as exactly the remaining ids
whose pruned dependency list is empty.  (The function is pure, so it cannot
mutate its input and is deterministic by construction.) -/
theorem c4_updateTaskGraph_correct (g : TaskGraph) (c : List String) (t : String) :
    (t ∈ (updateTaskGraph g c).tasks ↔ t ∈ g.tasks ∧ t ∉ c)
    ∧ (t ∈ (updateTaskGraph g c).tasks →
        lookupDeps (updateTaskGraph g c).dependencies t
          = (lookupDeps g.dependencies t).filter (fun d => !c.contains d))
    ∧ (t ∈ (updateTaskGraph g c).roots
        ↔ t ∈ (updateTaskGraph g c).tasks
          ∧ lookupDeps (updateTaskGraph g c).dependencies t = []) :=
  ⟨mem_tasks_updateTaskGraph g c t,
   fun ht => lookupDeps_updateTaskGraph g c t ht,
   mem_roots_updateTaskGraph g c t⟩

/-- C4 (witness): the dependency-pruning conjunct evaluated on a concrete
graph, with its membership hypothesis discharged by evaluation. -/
theorem c4_witness :
    lookupDeps (updateTaskGraph ⟨["A", "B"], [("A", []), ("B", ["A"])], []⟩
        ["B"]).dependencies "A"
      = (lookupDeps [("A", []), ("B", ["A"])] "A").filter
          (fun d => !(["B"].contains d)) :=
  (c4_updateTaskGraph_correct ⟨["A", "B"], [("A", []), ("B", ["A"])], []⟩
    ["B"] "A").2.1 (by decide)

/-- C7: when every task in the graph has a non-empty dependency list (as in an
all-cycle graph) and the roots invariant holds, the initial root set is empty,
so round 1 dispatches nothing and makes zero progress; the loop terminates at
once and every submitted task keeps its initial `skipped` status (and the
result keys are exactly the submitted ids). -/
theorem c7_cycle_all_skipped (exec : String → ExecOutcome) (L : List String)
    (g : TaskGraph)
    (hrt : ∀ r ∈ g.roots, r ∈ g.tasks)
    (hre : ∀ r ∈ g.roots, lookupDeps g.dependencies r = [])
    (hcyc : ∀ t ∈ g.tasks, lookupDeps g.dependencies t ≠ []) :
    (runAllTasks exec L g).trace = []
    ∧ (∀ id ∈ L, lookupStatus (runAllTasks exec L g).results id
        = some TaskStatus.skipped)
    ∧ (∀ a, a ∈ (runAllTasks exec L g).results.map Prod.fst ↔ a ∈ L) := by
  have hroots : g.roots = [] := by
    rw [List.eq_nil_iff_forall_not_mem]
    intro r hr
    exact hcyc r (hrt r hr) (hre r hr)
  have heq : runAllTasks exec L g
      = { results := initialResults L, todo := L.toFinset, continued := [],
          trace := [] } :=
    runLoop_of_roots_nil exec g _ hroots
  rw [heq]
  exact ⟨rfl, fun id hid => lookupStatus_initialResults L id hid,
    fun a => mem_keys_initialResults L a⟩

/-- C7 (witness): the theorem applied to a two-task cycle. -/
theorem c7_witness :
    (∀ r ∈ (⟨["A", "B"], [("A", ["B"]), ("B", ["A"])], []⟩ : TaskGraph).roots,
      r ∈ (⟨["A", "B"], [("A", ["B"]), ("B", ["A"])], []⟩ : TaskGraph).tasks)
    ∧ (∀ t ∈ (⟨["A", "B"], [("A", ["B"]), ("B", ["A"])], []⟩ : TaskGraph).tasks,
        lookupDeps [("A", ["B"]), ("B", ["A"])] t ≠ [])
    ∧ ((runAllTasks (fun _ => ExecOutcome.yields true true) ["A", "B"]
        ⟨["A", "B"], [("A", ["B"]), ("B", ["A"])], []⟩).trace = []
       ∧ (∀ id ∈ (["A", "B"] : List String),
          lookupStatus (runAllTasks (fun _ => ExecOutcome.yields true true) ["A", "B"]
            ⟨["A", "B"], [("A", ["B"]), ("B", ["A"])], []⟩).results id
            = some TaskStatus.skipped)
       ∧ (∀ a, a ∈ (runAllTasks (fun _ => ExecOutcome.yields true true) ["A", "B"]
            ⟨["A", "B"], [("A", ["B"]), ("B", ["A"])], []⟩).results.map Prod.fst
            ↔ a ∈ (["A", "B"] : List String))) :=
  ⟨by decide, by decide,
   c7_cycle_all_skipped (fun _ => ExecOutcome.yields true true) ["A", "B"]
     ⟨["A", "B"], [("A", ["B"]), ("B", ["A"])], []⟩
     (by decide) (by decide) (by decide)⟩

/-- C9 (counterexample): the claim that dependency lists referencing a
completed id absent from `graph.tasks` are left unaffected fails:
`_.difference` prunes the id from every dependency list regardless of whether
it is a task.  Here `"X"` is not a task, `"A"`'s dependency list references it,
and after `updateTaskGraph g ["X"]` the reference is gone. -/
theorem c9_counterexample :
    ("X" : String) ∉ (⟨["A"], [("A", ["X"])], []⟩ : TaskGraph).tasks
    ∧ "X" ∈ lookupDeps (⟨["A"], [("A", ["X"])], []⟩ : TaskGraph).dependencies "A"
    ∧ lookupDeps (updateTaskGraph ⟨["A"], [("A", ["X"])], []⟩ ["X"]).dependencies "A"
        = [] := by
  decide

/-- C9 (amended): if `completedIds` contains an id `x` that is not a key of
`graph.tasks`, no error occurs and `x` is simply absent from the task removal
(the resulting task list is the same as with `x` dropped from the completed
list), but every remaining task's dependency list still has `x` pruned from it
(`_.difference` removes every completed id, whether or not it was a task). -/
theorem c9_amended (g : TaskGraph) (c : List String) (x : String)
    (hx : x ∈ c) (hxt : x ∉ g.tasks) :
    ((updateTaskGraph g c).tasks
      = (updateTaskGraph g (c.filter (fun y => !(y == x)))).tasks)
    ∧ (∀ t ∈ (updateTaskGraph g c).tasks,
        lookupDeps (updateTaskGraph g c).dependencies t
          = (lookupDeps g.dependencies t).filter (fun d => !c.contains d)) := by
  constructor
  · show g.tasks.filter (fun t => !c.contains t)
      = g.tasks.filter (fun t => !(c.filter (fun y => !(y == x))).contains t)
    apply List.filter_congr
    intro t htl
    have htx : t ≠ x := fun h => hxt (h ▸ htl)
    by_cases htc : t ∈ c
    · have : t ∈ c.filter (fun y => !(y == x)) :=
        List.mem_filter.mpr ⟨htc, by
          simp only [Bool.not_eq_true']
          exact beq_eq_false_iff_ne.mpr htx⟩
      simp [htc, this]
    · have : t ∉ c.filter (fun y => !(y == x)) := fun hmem =>
        htc (List.mem_of_mem_filter hmem)
      simp [htc, this]
  · exact fun t ht => lookupDeps_updateTaskGraph g c t ht

/-- C9 (witness): the amended theorem applied to the counterexample graph. -/
theorem c9_witness :
    ("X" : String) ∈ (["X"] : List String)
    ∧ ("X" : String) ∉ (["A"] : List String)
    ∧ ((updateTaskGraph ⟨["A"], [("A", ["X"])], []⟩ ["X"]).tasks
        = (updateTaskGraph ⟨["A"], [("A", ["X"])], []⟩
            ((["X"] : List String).filter (fun y => !(y == "X")))).tasks
       ∧ (∀ t ∈ (updateTaskGraph ⟨["A"], [("A", ["X"])], []⟩ ["X"]).tasks,
          lookupDeps (updateTaskGraph ⟨["A"], [("A", ["X"])], []⟩ ["X"]).dependencies t
            = (lookupDeps [("A", ["X"])] t).filter (fun d => !(["X"].contains d)))) :=
  ⟨by decide, by decide,
   c9_amended ⟨["A"], [("A", ["X"])], []⟩ ["X"] "X" (by decide) (by decide)⟩

/-- C10: when the adapter's stream ends without ever yielding a value
(`done = true`, value `undefined`), destructuring throws inside the `try`:
the loop records status `failure` for the task, does not push it to the
round's `completed` list, and — because the task is then never removed from
the graph and never pruned from dependency lists — a task depending on it
never becomes a root and is never dispatched; the run continues instead of
raising. -/
theorem c10_done_no_value (exec : String → ExecOutcome) (L : List String)
    (g : TaskGraph) (x d : String)
    (hx : exec x = ExecOutcome.doneNoValue)
    (hrt : ∀ r ∈ g.roots, lookupDeps g.dependencies r = [])
    (hd : d ∈ g.tasks) (hxd : x ∈ lookupDeps g.dependencies d) :
    (∀ (st : RunState) (c : List String),
      (runTaskStep exec (st, c) x).2 = c
      ∧ lookupStatus (runTaskStep exec (st, c) x).1.results x
          = some TaskStatus.failure)
    ∧ d ∉ dispatches (runAllTasks exec L g).trace := by
  constructor
  · intro st c
    constructor
    · show (if execCompletes (exec x) then c ++ [x] else c) = c
      rw [hx]
      rfl
    · show lookupStatus (setValue st.results x (execStatus (exec x))) x = _
      rw [hx, lookupStatus_setValue_self]
      rfl
  · intro hmem
    have hnc : execCompletes (exec x) = false := by
      rw [hx]
      rfl
    have hres := runLoopAux_blocked exec x d hnc
      (({ results := initialResults L, todo := L.toFinset, continued := [],
          trace := [] } : RunState).todo.card + 1) g
      { results := initialResults L, todo := L.toFinset, continued := [], trace := [] }
      hrt hd hxd hmem
    exact absurd hres (List.not_mem_nil d)

/-- C10 (witness): the theorem applied to a graph where `A` depends on `B` and
`B`'s stream ends with no value: `A` is never dispatched. -/
theorem c10_witness :
    ((fun id => if id = "B" then ExecOutcome.doneNoValue
        else ExecOutcome.yields true true) "B") = ExecOutcome.doneNoValue
    ∧ ("A" : String) ∈ (["A", "B"] : List String)
    ∧ ("B" : String) ∈ lookupDeps [("A", ["B"]), ("B", [])] "A"
    ∧ ("A" : String) ∉ dispatches (runAllTasks
        (fun id => if id = "B" then ExecOutcome.doneNoValue
          else ExecOutcome.yields true true) ["A", "B"]
        ⟨["A", "B"], [("A", ["B"]), ("B", [])], ["B"]⟩).trace :=
  ⟨by decide, by decide, by decide,
   (c10_done_no_value
     (fun id => if id = "B" then ExecOutcome.doneNoValue else ExecOutcome.yields true true)
     ["A", "B"] ⟨["A", "B"], [("A", ["B"]), ("B", [])], ["B"]⟩ "B" "A"
     (by decide) (by decide) (by decide) (by decide)).2⟩

/-- C5: for every dispatched task, the first event's `success` flag determines
the recorded status (`success` exactly when the flag is true); when the
adapter raises instead of yielding, the recorded status is `failure` and the
error is logged; and an adapter error is never fatal: a round always
dispatches exactly the whole current root list, in order, regardless of the
outcomes. -/
theorem c5_status_semantics (exec : String → ExecOutcome) (L : List String)
    (g : TaskGraph) (h1 : g.tasks.Nodup) (h2 : g.roots.Nodup) :
    (∀ id s dn, exec id = ExecOutcome.yields s dn →
      id ∈ dispatches (runAllTasks exec L g).trace →
      lookupStatus (runAllTasks exec L g).results id
        = some (if s then TaskStatus.success else TaskStatus.failure))
    ∧ (∀ id, exec id = ExecOutcome.raises →
        id ∈ dispatches (runAllTasks exec L g).trace →
        lookupStatus (runAllTasks exec L g).results id = some TaskStatus.failure
          ∧ RunEvent.logError id ∈ (runAllTasks exec L g).trace)
    ∧ (∀ (g' : TaskGraph) (st : RunState),
        dispatches (runRound exec g' st).1.trace = dispatches st.trace ++ g'.roots) := by
  refine ⟨?_, ?_, fun g' st => runRound_dispatches exec g' st⟩
  · intro id s dn hes hdisp
    have h := runLoopAux_dispatched_status exec id
      (({ results := initialResults L, todo := L.toFinset, continued := [],
          trace := [] } : RunState).todo.card + 1) g
      { results := initialResults L, todo := L.toFinset, continued := [], trace := [] }
      h1 h2 hdisp
    rcases h with h | h
    · exact absurd h (List.not_mem_nil id)
    · have h' : lookupStatus (runAllTasks exec L g).results id
          = some (execStatus (exec id)) := h
      rw [hes] at h'
      exact h'
  · intro id hes hdisp
    constructor
    · have h := runLoopAux_dispatched_status exec id
        (({ results := initialResults L, todo := L.toFinset, continued := [],
            trace := [] } : RunState).todo.card + 1) g
        { results := initialResults L, todo := L.toFinset, continued := [], trace := [] }
        h1 h2 hdisp
      rcases h with h | h
      · exact absurd h (List.not_mem_nil id)
      · have h' : lookupStatus (runAllTasks exec L g).results id
            = some (execStatus (exec id)) := h
        rw [hes] at h'
        exact h'
    · have hnc : execCompletes (exec id) = false := by
        rw [hes]
        rfl
      have h := runLoopAux_logged exec id hnc
        (({ results := initialResults L, todo := L.toFinset, continued := [],
            trace := [] } : RunState).todo.card + 1) g
        { results := initialResults L, todo := L.toFinset, continued := [], trace := [] }
        hdisp
      rcases h with h | h
      · exact absurd h (List.not_mem_nil id)
      · exact h

/-- C5 (witness): the theorem applied to a two-root graph where `A` raises and
`B` yields a success event. -/
theorem c5_witness :
    (["A", "B"] : List String).Nodup ∧ (["A", "B"] : List String).Nodup
    ∧ (((fun id => if id = "A" then ExecOutcome.raises
          else ExecOutcome.yields true true) : String → ExecOutcome) "A"
        = ExecOutcome.raises)
    ∧ "A" ∈ dispatches (runAllTasks
        (fun id => if id = "A" then ExecOutcome.raises else ExecOutcome.yields true true)
        ["A", "B"] ⟨["A", "B"], [("A", []), ("B", [])], ["A", "B"]⟩).trace
    ∧ (lookupStatus (runAllTasks
          (fun id => if id = "A" then ExecOutcome.raises else ExecOutcome.yields true true)
          ["A", "B"] ⟨["A", "B"], [("A", []), ("B", [])], ["A", "B"]⟩).results "A"
        = some TaskStatus.failure
       ∧ RunEvent.logError "A" ∈ (runAllTasks
          (fun id => if id = "A" then ExecOutcome.raises else ExecOutcome.yields true true)
          ["A", "B"] ⟨["A", "B"], [("A", []), ("B", [])], ["A", "B"]⟩).trace) :=
  ⟨by decide, by decide, by decide, by decide,
   (c5_status_semantics
     (fun id => if id = "A" then ExecOutcome.raises else ExecOutcome.yields true true)
     ["A", "B"] ⟨["A", "B"], [("A", []), ("B", [])], ["A", "B"]⟩
     (by decide) (by decide)).2.1 "A" (by decide) (by decide)⟩

/-- C3: assuming the initial graph's roots invariant (roots lie in the task
set and have empty dependency lists), every dispatched task's declared
dependencies were all dispatched — and hence had a terminal status recorded —
strictly earlier in the run (they occur in the dispatch list before position
`i`); and within a single round the dispatched ids are exactly the iteration
order of `graph.roots`. -/
theorem c3_dependency_order (exec : String → ExecOutcome) (L : List String)
    (g : TaskGraph)
    (hrt : ∀ r ∈ g.roots, r ∈ g.tasks)
    (hre : ∀ r ∈ g.roots, lookupDeps g.dependencies r = []) :
    (∀ i t, (dispatches (runAllTasks exec L g).trace)[i]? = some t →
      ∀ d ∈ lookupDeps g.dependencies t,
        d ∈ (dispatches (runAllTasks exec L g).trace).take i)
    ∧ (∀ (g' : TaskGraph) (st : RunState),
        dispatches (runRound exec g' st).1.trace = dispatches st.trace ++ g'.roots) := by
  refine ⟨?_, fun g' st => runRound_dispatches exec g' st⟩
  intro i t hi d hd
  exact runLoopAux_deps_before exec (fun t => lookupDeps g.dependencies t)
    (({ results := initialResults L, todo := L.toFinset, continued := [],
        trace := [] } : RunState).todo.card + 1) g
    { results := initialResults L, todo := L.toFinset, continued := [], trace := [] }
    hrt hre (fun t _ d hd => Or.inl hd) i t hi (Nat.zero_le i) d hd

/-- C3 (witness): the theorem applied to the chain `B` after `A`. -/
theorem c3_witness :
    (∀ r ∈ (["A"] : List String), r ∈ (["A", "B"] : List String))
    ∧ (∀ r ∈ (["A"] : List String), lookupDeps [("A", []), ("B", ["A"])] r = [])
    ∧ ((∀ i t, (dispatches (runAllTasks (fun _ => ExecOutcome.yields true true)
          ["A", "B"] ⟨["A", "B"], [("A", []), ("B", ["A"])], ["A"]⟩).trace)[i]?
            = some t →
        ∀ d ∈ lookupDeps [("A", []), ("B", ["A"])] t,
          d ∈ (dispatches (runAllTasks (fun _ => ExecOutcome.yields true true)
            ["A", "B"] ⟨["A", "B"], [("A", []), ("B", ["A"])], ["A"]⟩).trace).take i)
      ∧ (∀ (g' : TaskGraph) (st : RunState),
          dispatches (runRound (fun _ => ExecOutcome.yields true true) g' st).1.trace
            = dispatches st.trace ++ g'.roots)) :=
  ⟨by decide, by decide,
   c3_dependency_order (fun _ => ExecOutcome.yields true true) ["A", "B"]
     ⟨["A", "B"], [("A", []), ("B", ["A"])], ["A"]⟩ (by decide) (by decide)⟩

/-- C6: in the two-node graph where `B` depends on `A` and `A`'s run yields a
failure event, `A` completes with status `failure`, the reducer removes it, and
`B` is still dispatched in the next round (a failed dependency does not block
its dependents); the result maps `A` to `failure` and `B` to the status of its
own run, whatever the adapter does for `B`. -/
theorem c6_failed_dep_does_not_block (dA : Bool) (eB : ExecOutcome) :
    dispatches (runAllTasks
      (fun id => if id = "A" then ExecOutcome.yields false dA else eB)
      ["A", "B"] ⟨["A", "B"], [("A", []), ("B", ["A"])], ["A"]⟩).trace = ["A", "B"]
    ∧ lookupStatus (runAllTasks
        (fun id => if id = "A" then ExecOutcome.yields false dA else eB)
        ["A", "B"] ⟨["A", "B"], [("A", []), ("B", ["A"])], ["A"]⟩).results "A"
        = some TaskStatus.failure
    ∧ lookupStatus (runAllTasks
        (fun id => if id = "A" then ExecOutcome.yields false dA else eB)
        ["A", "B"] ⟨["A", "B"], [("A", []), ("B", ["A"])], ["A"]⟩).results "B"
        = some (execStatus eB) := by
  cases dA <;> rcases eB with _ | ⟨s, dn⟩ | _ <;> (try cases s) <;> (try cases dn) <;>
    decide

/-- C8: reducing the graph in two steps with disjoint completed sets `A` then
`B` (with `B`'s dependencies confined to `A` or the remaining graph, as the
claim assumes) gives the same graph as reducing once with the union `A ++ B`:
omitting tasks and pruning dependency lists commute with splitting the
completed set. -/
theorem c8_reduce_compose (g : TaskGraph) (A B : List String)
    (hdisj : ∀ a ∈ A, a ∉ B)
    (hBc : ∀ b ∈ B, ∀ d ∈ lookupDeps g.dependencies b,
      d ∈ A ∨ d ∈ (updateTaskGraph g A).tasks) :
    updateTaskGraph (updateTaskGraph g A) B = updateTaskGraph g (A ++ B) := by
  have hpt : ∀ t : String,
      ((!B.contains t) && (!A.contains t)) = !((A ++ B).contains t) := by
    intro t
    rw [contains_append_eq]
    cases hA : A.contains t <;> cases hB : B.contains t <;> rfl
  have htasks : (updateTaskGraph g A).tasks.filter (fun t => !B.contains t)
      = g.tasks.filter (fun t => !((A ++ B).contains t)) := by
    show (g.tasks.filter (fun t => !A.contains t)).filter (fun t => !B.contains t) = _
    rw [List.filter_filter]
    exact List.filter_congr (fun t _ => hpt t)
  have hdeps : (updateTaskGraph (updateTaskGraph g A) B).dependencies
      = (updateTaskGraph g (A ++ B)).dependencies := by
    show ((updateTaskGraph g A).tasks.filter (fun t => !B.contains t)).map
        (fun t => (t, (lookupDeps (updateTaskGraph g A).dependencies t).filter
          (fun d => !B.contains d)))
      = (g.tasks.filter (fun t => !((A ++ B).contains t))).map
        (fun t => (t, (lookupDeps g.dependencies t).filter
          (fun d => !((A ++ B).contains d))))
    rw [← htasks]
    refine List.map_congr_left (fun t ht => ?_)
    have ht₁ : t ∈ (updateTaskGraph g A).tasks := List.mem_of_mem_filter ht
    rw [lookupDeps_updateTaskGraph g A t ht₁, List.filter_filter]
    refine congrArg (fun l => (t, l)) ?_
    exact List.filter_congr (fun d _ => hpt d)
  have htasks' : (updateTaskGraph (updateTaskGraph g A) B).tasks
      = (updateTaskGraph g (A ++ B)).tasks := htasks
  have hroots : (updateTaskGraph (updateTaskGraph g A) B).roots
      = (updateTaskGraph g (A ++ B)).roots := by
    rw [roots_updateTaskGraph_eq, roots_updateTaskGraph_eq, htasks', hdeps]
  exact TaskGraph.ext' _ _ htasks' hdeps hroots

/-- C8 (witness): the theorem applied to a three-task chain with `A = ["A"]`,
`B = ["B"]`. -/
theorem c8_witness :
    (∀ a ∈ (["A"] : List String), a ∉ (["B"] : List String))
    ∧ (∀ b ∈ (["B"] : List String),
        ∀ d ∈ lookupDeps [("A", []), ("B", ["A"]), ("C", ["A", "B"])] b,
        d ∈ (["A"] : List String)
          ∨ d ∈ (updateTaskGraph
              ⟨["A", "B", "C"], [("A", []), ("B", ["A"]), ("C", ["A", "B"])], ["A"]⟩
              ["A"]).tasks)
    ∧ updateTaskGraph (updateTaskGraph
        ⟨["A", "B", "C"], [("A", []), ("B", ["A"]), ("C", ["A", "B"])], ["A"]⟩
        ["A"]) ["B"]
      = updateTaskGraph
          ⟨["A", "B", "C"], [("A", []), ("B", ["A"]), ("C", ["A", "B"])], ["A"]⟩
          (["A"] ++ ["B"]) :=
  ⟨by decide, by decide,
   c8_reduce_compose
     ⟨["A", "B", "C"], [("A", []), ("B", ["A"]), ("C", ["A", "B"])], ["A"]⟩
     ["A"] ["B"] (by decide) (by decide)⟩

/-- C2 (counterexample): the claim fails for a graph whose node set is a
strict superset of the submitted task list.  With submitted list `["A"]` and an
acyclic, fully declared graph containing the extra root `B`, the loop iterates
over `graph.roots`, dispatches `B` too, and `results[task.id] = status` adds a
new key: the returned mapping has key list `["A", "B"]`, not `["A"]`. -/
theorem c2_counterexample :
    (runAllTasks (fun _ => ExecOutcome.yields true true) ["A"]
      ⟨["A", "B"], [("A", []), ("B", [])], ["A", "B"]⟩).results.map Prod.fst
      = ["A", "B"]
    ∧ ("B" : String) ∉ (["A"] : List String) := by
  decide

/-- C2 (amended): for an acyclic (witnessed by a strictly decreasing measure
on dependency edges), fully declared graph whose node set equals the
submitted id set, with unique task keys, the correct roots field, and an
adapter that always yields a first event, the run completes: the result
mapping's key set is exactly the submitted id set and every submitted task's
status is `success` or `failure`. -/
theorem c2_amended_run_completes (exec : String → ExecOutcome) (L : List String)
    (g : TaskGraph) (f : String → Nat)
    (hexec : ∀ id, execCompletes (exec id) = true)
    (h1 : g.tasks.Nodup)
    (hB : g.roots = g.tasks.filter (fun t => (lookupDeps g.dependencies t).length == 0))
    (hC : ∀ t ∈ g.tasks, ∀ d ∈ lookupDeps g.dependencies t, d ∈ g.tasks)
    (hD : ∀ t ∈ g.tasks, ∀ d ∈ lookupDeps g.dependencies t, f d < f t)
    (hset : g.tasks.toFinset = L.toFinset) :
    (∀ a, a ∈ (runAllTasks exec L g).results.map Prod.fst ↔ a ∈ L)
    ∧ (∀ id ∈ L,
        lookupStatus (runAllTasks exec L g).results id = some TaskStatus.success
          ∨ lookupStatus (runAllTasks exec L g).results id
              = some TaskStatus.failure) := by
  have hE : (initialState L).todo = g.tasks.toFinset := hset.symm
  have htl : ∀ a ∈ g.tasks, a ∈ L := by
    intro a ha
    have hmemF : a ∈ L.toFinset := hset ▸ List.mem_toFinset.mpr ha
    exact List.mem_toFinset.mp hmemF
  have hF : ∀ a, a ∈ (initialResults L).map Prod.fst ↔ a ∈ L :=
    fun a => mem_keys_initialResults L a
  have hG : ∀ id ∈ L,
      id ∉ (initialState L).todo →
      lookupStatus (initialResults L) id = some TaskStatus.success
        ∨ lookupStatus (initialResults L) id = some TaskStatus.failure := by
    intro id hid hnot
    exact absurd (List.mem_toFinset.mpr hid) hnot
  have h := runLoopAux_completes_all exec hexec f L
    ((initialState L).todo.card + 1) g (initialState L)
    (le_refl _) h1 hB hC hD hE htl hF hG
  exact ⟨h.2.1, h.2.2⟩

/-- C2 (witness): the amended theorem applied to the chain `B` after `A` with
an always-succeeding adapter and measure `A ↦ 0`, `B ↦ 1`. -/
theorem c2_witness :
    (∀ id : String, execCompletes ((fun _ => ExecOutcome.yields true true) id) = true)
    ∧ (["A", "B"] : List String).Nodup
    ∧ (⟨["A", "B"], [("A", []), ("B", ["A"])], ["A"]⟩ : TaskGraph).roots
        = (["A", "B"] : List String).filter
            (fun t => (lookupDeps [("A", []), ("B", ["A"])] t).length == 0)
    ∧ (∀ t ∈ (["A", "B"] : List String),
        ∀ d ∈ lookupDeps [("A", []), ("B", ["A"])] t, d ∈ (["A", "B"] : List String))
    ∧ (∀ t ∈ (["A", "B"] : List String),
        ∀ d ∈ lookupDeps [("A", []), ("B", ["A"])] t,
        (fun id => if id = "B" then 1 else 0 : String → Nat) d
          < (fun id => if id = "B" then 1 else 0 : String → Nat) t)
    ∧ ((∀ a, a ∈ (runAllTasks (fun _ => ExecOutcome.yields true true) ["A", "B"]
          ⟨["A", "B"], [("A", []), ("B", ["A"])], ["A"]⟩).results.map Prod.fst
          ↔ a ∈ (["A", "B"] : List String))
       ∧ (∀ id ∈ (["A", "B"] : List String),
          lookupStatus (runAllTasks (fun _ => ExecOutcome.yields true true) ["A", "B"]
            ⟨["A", "B"], [("A", []), ("B", ["A"])], ["A"]⟩).results id
            = some TaskStatus.success
          ∨ lookupStatus (runAllTasks (fun _ => ExecOutcome.yields true true) ["A", "B"]
              ⟨["A", "B"], [("A", []), ("B", ["A"])], ["A"]⟩).results id
              = some TaskStatus.failure)) :=
  ⟨fun _ => rfl, by decide, by decide, by decide, by decide,
   c2_amended_run_completes (fun _ => ExecOutcome.yields true true) ["A", "B"]
     ⟨["A", "B"], [("A", []), ("B", ["A"])], ["A"]⟩
     (fun id => if id = "B" then 1 else 0)
     (fun _ => rfl) (by decide) (by decide) (by decide) (by decide) (by decide)⟩
